import Mathlib

/-!
# FillyTrckr — spool lifecycle, aggregation and filter engine

A shallow embedding of the FillyTrckr engine.  The grouping/aggregation
logic and the UI handlers are translated from
`src/frontend/src/pages/RollsPage.tsx` (`groupRollsByType`,
`handleWeightUpdate`, `handleToggleInUse`, `handleOpenNewRoll`).  The
backend endpoints (`/v1/filly/rolls/filter`, `update_weight`,
`set_in_use`, `set_opened`) are implemented in a Python service that is
not part of the repository snapshot; those operations are modelled from
the specification (each such definition is marked `Modelled from the
spec:`).

Timestamps (`created_at`, `updated_at`) are modelled as natural numbers
(the value of `new Date(s).getTime()`); weights are integers so that
negative inputs can be expressed.  Name-enrichment fields
(`brand_name`, `color_name`, …) are copied verbatim from lookup maps
and are referenced by no claim, so they are omitted from the record.
-/

namespace FillyTrckr

/-- One spool record (`interface Roll` in RollsPage.tsx). -/
structure Roll where
  id : Nat
  brand_id : Nat
  color_id : Nat
  type_id : Nat
  subtype_id : Nat
  created_at : Nat
  updated_at : Nat
  weight_grams : Int
  original_weight_grams : Int
  in_use : Bool
  opened : Bool
deriving Repr, DecidableEq

/-- The client-side filter state of RollsPage (`filterBrandId`,
`filterColorId`, `filterTypeId`, `filterSubtypeId`, `filterOpenedOnly`,
`filterInUseOnly`); `none` models the empty-string "All" selection. -/
structure FilterCriteria where
  brand_id : Option Nat
  color_id : Option Nat
  type_id : Option Nat
  subtype_id : Option Nat
  opened_only : Bool
  in_use_only : Bool
deriving Repr, DecidableEq

/-- The empty criteria configuration: no filter selected. -/
def FilterCriteria.none : FilterCriteria :=
  ⟨Option.none, Option.none, Option.none, Option.none, false, false⟩

/-- An optional exact-match criterion: `filterX !== '' && roll.x_id !== filterX`
drops the roll, i.e. the roll passes when the criterion is absent or equal. -/
def matchOpt (o : Option Nat) (v : Nat) : Bool :=
  match o with
  | some b => v == b
  | none => true

/-- The per-roll predicate of the `rolls.filter` callback in
`groupRollsByType` (RollsPage.tsx lines 186–201): each provided
criterion must match, otherwise the roll is dropped. -/
def matchesFilters (c : FilterCriteria) (roll : Roll) : Bool :=
  matchOpt c.brand_id roll.brand_id &&
  matchOpt c.color_id roll.color_id &&
  matchOpt c.type_id roll.type_id &&
  matchOpt c.subtype_id roll.subtype_id &&
  (!c.opened_only || roll.opened) &&
  (!c.in_use_only || roll.in_use)

/-- The composite grouping key `brand_id-color_id-type_id-subtype_id`
(the template string is injective on numeric ids, so the 4-tuple is an
equivalent key). -/
abbrev GroupKey := Nat × Nat × Nat × Nat

def rollKey (r : Roll) : GroupKey :=
  (r.brand_id, r.color_id, r.type_id, r.subtype_id)

/-- One step of building the `groups` map: `groups.get(key)!.push(roll)`
with insertion-ordered keys (a JS `Map` iterates in insertion order). -/
def insertRoll (groups : List (GroupKey × List Roll)) (r : Roll) :
    List (GroupKey × List Roll) :=
  match groups with
  | [] => [(rollKey r, [r])]
  | (k, rs) :: rest =>
    if k = rollKey r then (k, rs ++ [r]) :: rest
    else (k, rs) :: insertRoll rest r

/-- The `filteredRolls.forEach` loop populating the `groups` map. -/
def buildGroups (rolls : List Roll) : List (GroupKey × List Roll) :=
  rolls.foldl insertRoll []

/-- Insert a roll into a list already sorted by `key`, after every
element whose key is strictly smaller and before the first element
whose key is `≥` — placing it after earlier equal-key elements is what
makes the sort stable, matching the stable JS `Array.prototype.sort`. -/
def insertSorted (key : Roll → Nat) (r : Roll) : List Roll → List Roll
  | [] => [r]
  | s :: rest =>
    if key r ≤ key s then r :: s :: rest else s :: insertSorted key r rest

/-- Stable sort by a numeric key, modelling
`.sort((a, b) => key(a) - key(b))` on a JS array. -/
def sortByKey (key : Roll → Nat) : List Roll → List Roll
  | [] => []
  | r :: rest => insertSorted key r (sortByKey key rest)

/-- Models `.sort((a, b) => new Date(a.created_at).getTime() - new Date(b.created_at).getTime())`. -/
def sortByCreated : List Roll → List Roll :=
  sortByKey (·.created_at)

/-- One aggregated row (`interface GroupedRoll`), name fields omitted. -/
structure GroupedRoll where
  key : GroupKey
  brand_id : Nat
  color_id : Nat
  type_id : Nat
  subtype_id : Nat
  original_weight_grams : Int
  rolls : List Roll
  openedRolls : List Roll
  unopenedRolls : List Roll
  oldestRoll : Roll
  created_at : Nat
  updated_at : Nat
deriving Repr, DecidableEq

/-- Body of the `groups.forEach` loop in `groupRollsByType` (lines
216–247): split into opened (sorted oldest-first) and unopened rolls,
pick the oldest roll of the whole group, and copy its fields into the
view.  `sortedByDate[0]` presupposes a non-empty group (always true for
groups built by `buildGroups`); the `Option` records that totality
side-condition. -/
def makeGroup (key : GroupKey) (rollsInGroup : List Roll) : Option GroupedRoll :=
  match sortByCreated rollsInGroup with
  | [] => Option.none
  | oldestRoll :: _ =>
    some {
      key := key
      brand_id := oldestRoll.brand_id
      color_id := oldestRoll.color_id
      type_id := oldestRoll.type_id
      subtype_id := oldestRoll.subtype_id
      original_weight_grams := oldestRoll.original_weight_grams
      rolls := rollsInGroup
      openedRolls := sortByCreated (rollsInGroup.filter (·.opened))
      unopenedRolls := rollsInGroup.filter (fun r => !r.opened)
      oldestRoll := oldestRoll
      created_at := oldestRoll.created_at
      updated_at := oldestRoll.updated_at
    }

/-- Embedding of `groupRollsByType` (RollsPage.tsx lines 184–251): filter at the
individual roll level, group by the composite key, then emit one
`GroupedRoll` per key in insertion order. -/
def groupRollsByType (c : FilterCriteria) (rolls : List Roll) : List GroupedRoll :=
  let filteredRolls := rolls.filter (matchesFilters c)
  (buildGroups filteredRolls).filterMap (fun p => makeGroup p.1 p.2)

/-! ## Backend engine operations

The Python backend implementing `/v1/filly/rolls/...` is not part of the
repository snapshot (the frontend only calls it), so the lifecycle and
query operations below are modelled from the specification. -/

/-- Error taxonomy of §7 (only the kinds these operations raise). -/
inductive EngineError where
  | validationError
  | notFoundError
deriving Repr, DecidableEq

/-- Modelled from the spec: `set_opened(id)` of §4.2 — the backend
endpoint `/v1/filly/rolls/{id}/set_opened` is not in the snapshot.
No-op if already opened; otherwise sets `opened=true`, leaves
`weight_grams` unchanged, updates `updated_at`. -/
def set_opened (now : Nat) (r : Roll) : Roll :=
  if r.opened then r
  else { r with opened := true, updated_at := now }

/-- The loosely-typed `update_weight` request body: either
`new_weight_grams` or `decrease_by_grams`. -/
structure WeightUpdate where
  new_weight_grams : Option Int
  decrease_by_grams : Option Int
deriving Repr, DecidableEq

/-- Modelled from the spec: `update_weight(id, …)` of §4.2 — the backend
endpoint `/v1/filly/rolls/{id}/update_weight` is not in the snapshot.
Exactly one of the two forms is accepted; `ValidationError` if neither
or both are given, an input is negative, or the resulting value would
leave `[0, original_weight_grams]`.  If the record is not yet opened the
engine implicitly performs `set_opened` first (opening-on-first-weigh),
then applies the weight change and updates `updated_at`. -/
def update_weight (now : Nat) (r : Roll) (u : WeightUpdate) :
    Except EngineError Roll :=
  match u.new_weight_grams, u.decrease_by_grams with
  | Option.none, Option.none => .error .validationError
  | some _, some _ => .error .validationError
  | some w, Option.none =>
    if w < 0 ∨ r.original_weight_grams < w then .error .validationError
    else .ok { set_opened now r with weight_grams := w, updated_at := now }
  | Option.none, some d =>
    if d < 0 then .error .validationError
    else if r.weight_grams - d < 0 ∨ r.original_weight_grams < r.weight_grams - d then
      .error .validationError
    else
      .ok { set_opened now r with
              weight_grams := r.weight_grams - d, updated_at := now }

/-- Modelled from the spec: `set_in_use(id, in_use)` of §4.2 — the
backend endpoint `/v1/filly/rolls/{id}/set_in_use` is not in the
snapshot.  `ValidationError` when attempting to set `in_use=true` on an
unopened record; updates `updated_at` only if the value changes. -/
def set_in_use (now : Nat) (r : Roll) (v : Bool) : Except EngineError Roll :=
  if v && !r.opened then .error .validationError
  else if r.in_use == v then .ok r
  else .ok { r with in_use := v, updated_at := now }

/-- The query criteria of §4.4: the client-side criteria plus the
`include_zero_weight` flag (default `false`). -/
structure QueryCriteria where
  brand_id : Option Nat
  color_id : Option Nat
  type_id : Option Nat
  subtype_id : Option Nat
  opened_only : Bool
  in_use_only : Bool
  include_zero_weight : Bool
deriving Repr, DecidableEq

/-- The query criteria with no option selected. -/
def QueryCriteria.none : QueryCriteria :=
  ⟨Option.none, Option.none, Option.none, Option.none, false, false, false⟩

/-- Modelled from the spec: the characteristic/state criteria of the
`filter(records, criteria)` contract of §4.4, i.e. everything except
the zero-weight rule.  Every provided criterion must match (logical
AND). -/
def matchesBase (c : QueryCriteria) (r : Roll) : Bool :=
  matchOpt c.brand_id r.brand_id &&
  matchOpt c.color_id r.color_id &&
  matchOpt c.type_id r.type_id &&
  matchOpt c.subtype_id r.subtype_id &&
  (!c.opened_only || r.opened) &&
  (!c.in_use_only || r.in_use)

/-- Modelled from the spec: the full per-record predicate of
`filter(records, criteria)` of §4.4 — the backend endpoint
`/v1/filly/rolls/filter` is not in the snapshot.  Unless
`include_zero_weight` is set, records with `weight_grams == 0` are
excluded. -/
def matchesQuery (c : QueryCriteria) (r : Roll) : Bool :=
  matchesBase c r && (c.include_zero_weight || r.weight_grams != 0)

/-- Modelled from the spec: `filter(records, criteria)` of §4.4. -/
def filterRecords (c : QueryCriteria) (records : List Roll) : List Roll :=
  records.filter (matchesQuery c)

/-! ## Frontend handlers (RollsPage.tsx) -/

/-- Frontend handler `handleOpenNewRoll` (RollsPage.tsx lines 363–383): returns the roll
on which the handler issues `set_opened`, or `none` when it performs no
call (empty `unopenedRolls`).  The handler sorts the group's unopened
rolls by `created_at` and opens the first. -/
def handleOpenNewRoll (g : GroupedRoll) : Option Roll :=
  if g.unopenedRolls.length = 0 then Option.none
  else (sortByCreated g.unopenedRolls).head?

/-! ## Sorting lemmas -/

theorem insertSorted_perm (key : Roll → Nat) (r : Roll) (l : List Roll) :
    (insertSorted key r l).Perm (r :: l) := by
  induction l with
  | nil => simp [insertSorted]
  | cons s rest ih =>
    simp only [insertSorted]
    split
    · exact List.Perm.refl _
    · exact (ih.cons s).trans (List.Perm.swap r s rest)

theorem sortByKey_perm (key : Roll → Nat) (l : List Roll) :
    (sortByKey key l).Perm l := by
  induction l with
  | nil => simp [sortByKey]
  | cons r rest ih =>
    exact ((insertSorted_perm key r (sortByKey key rest)).trans (ih.cons r))

theorem mem_sortByKey (key : Roll → Nat) (l : List Roll) (x : Roll) :
    x ∈ sortByKey key l ↔ x ∈ l :=
  (sortByKey_perm key l).mem_iff

theorem mem_sortByCreated (l : List Roll) (x : Roll) :
    x ∈ sortByCreated l ↔ x ∈ l :=
  mem_sortByKey (·.created_at) l x

theorem insertSorted_pairwise (key : Roll → Nat) (r : Roll) (l : List Roll)
    (h : l.Pairwise (fun a b => key a ≤ key b)) :
    (insertSorted key r l).Pairwise (fun a b => key a ≤ key b) := by
  induction l with
  | nil => simp [insertSorted]
  | cons s rest ih =>
    rcases List.pairwise_cons.mp h with ⟨hs, hrest⟩
    simp only [insertSorted]
    split
    · rename_i hle
      refine List.pairwise_cons.mpr ⟨?_, h⟩
      intro x hx
      rcases List.mem_cons.mp hx with rfl | hx
      · exact hle
      · exact le_trans hle (hs x hx)
    · rename_i hgt
      refine List.pairwise_cons.mpr ⟨?_, ih hrest⟩
      intro x hx
      rcases List.mem_cons.mp ((insertSorted_perm key r rest).mem_iff.mp hx) with
        rfl | h'
      · exact le_of_not_le hgt
      · exact hs x h'

theorem sortByKey_pairwise (key : Roll → Nat) (l : List Roll) :
    (sortByKey key l).Pairwise (fun a b => key a ≤ key b) := by
  induction l with
  | nil => simp [sortByKey]
  | cons r rest ih => exact insertSorted_pairwise key r _ ih

/-- The head of the stable sort is a member with minimal key. -/
theorem sortByKey_head_min (key : Roll → Nat) (l : List Roll) (x : Roll)
    (tl : List Roll) (h : sortByKey key l = x :: tl) :
    x ∈ l ∧ ∀ r ∈ l, key x ≤ key r := by
  have hperm := sortByKey_perm key l
  rw [h] at hperm
  constructor
  · exact hperm.mem_iff.mp (List.mem_cons_self x tl)
  · intro r hr
    have hr' : r ∈ x :: tl := hperm.mem_iff.mpr hr
    rcases List.mem_cons.mp hr' with rfl | hr'
    · exact le_refl _
    · have hp := sortByKey_pairwise key l
      rw [h] at hp
      exact (List.pairwise_cons.mp hp).1 r hr'

/-! ## Grouping lemmas -/

/-- Invariant of the `groups` association list: keys are distinct, every
roll sits under its own key, and every bucket is non-empty. -/
def GroupsWF (gs : List (GroupKey × List Roll)) : Prop :=
  (gs.map Prod.fst).Nodup ∧
  (∀ p ∈ gs, ∀ r ∈ p.2, rollKey r = p.1) ∧
  (∀ p ∈ gs, p.2 ≠ [])

theorem mem_keys_insertRoll (gs : List (GroupKey × List Roll)) (r : Roll)
    (x : GroupKey) :
    x ∈ (insertRoll gs r).map Prod.fst ↔ x ∈ gs.map Prod.fst ∨ x = rollKey r := by
  induction gs with
  | nil => simp [insertRoll]
  | cons p rest ih =>
    obtain ⟨k, rs⟩ := p
    simp only [insertRoll]
    split
    · rename_i hk
      subst hk
      simp only [List.map_cons, List.mem_cons]
      tauto
    · simp only [List.map_cons, List.mem_cons, ih]
      tauto

theorem insertRoll_wf (gs : List (GroupKey × List Roll)) (r : Roll)
    (h : GroupsWF gs) : GroupsWF (insertRoll gs r) := by
  induction gs with
  | nil =>
    refine ⟨by simp [insertRoll], ?_, by simp [insertRoll]⟩
    intro p hp x hx
    simp only [insertRoll, List.mem_singleton] at hp
    subst hp
    have hx' : x = r := by simpa using hx
    subst hx'
    rfl
  | cons q rest ih =>
    obtain ⟨k, rs⟩ := q
    obtain ⟨hnd, hkey, hne⟩ := h
    simp only [List.map_cons, List.nodup_cons] at hnd
    have hrest : GroupsWF rest :=
      ⟨hnd.2, fun p hp => hkey p (List.mem_cons_of_mem _ hp),
        fun p hp => hne p (List.mem_cons_of_mem _ hp)⟩
    simp only [insertRoll]
    split
    · rename_i hk
      refine ⟨by simpa using hnd, ?_, ?_⟩
      · intro p hp x hx
        rcases List.mem_cons.mp hp with hp | hp
        · subst hp
          rcases List.mem_append.mp hx with hx | hx
          · exact hkey (k, rs) (List.mem_cons_self _ _) x hx
          · have hx' : x = r := by simpa using hx
            subst hx'
            exact hk.symm
        · exact hkey p (List.mem_cons_of_mem _ hp) x hx
      · intro p hp
        rcases List.mem_cons.mp hp with hp | hp
        · subst hp
          simp
        · exact hne p (List.mem_cons_of_mem _ hp)
    · rename_i hk
      obtain ⟨hnd', hkey', hne'⟩ := ih hrest
      refine ⟨?_, ?_, ?_⟩
      · simp only [List.map_cons, List.nodup_cons]
        refine ⟨?_, hnd'⟩
        intro hmem
        rcases (mem_keys_insertRoll rest r k).mp hmem with hmem | hmem
        · exact hnd.1 hmem
        · exact hk hmem
      · intro p hp x hx
        rcases List.mem_cons.mp hp with hp | hp
        · subst hp
          exact hkey (k, rs) (List.mem_cons_self _ _) x hx
        · exact hkey' p hp x hx
      · intro p hp
        rcases List.mem_cons.mp hp with hp | hp
        · subst hp
          exact hne (k, rs) (List.mem_cons_self _ _)
        · exact hne' p hp

theorem mem_snd_insertRoll (gs : List (GroupKey × List Roll)) (r x : Roll) :
    (∃ p ∈ insertRoll gs r, x ∈ p.2) ↔ (∃ p ∈ gs, x ∈ p.2) ∨ x = r := by
  induction gs with
  | nil => simp [insertRoll]
  | cons q rest ih =>
    obtain ⟨k, rs⟩ := q
    simp only [insertRoll]
    split
    · simp only [List.exists_mem_cons_iff, List.mem_append, List.mem_singleton]
      generalize (∃ p ∈ rest, x ∈ p.2) = B
      tauto
    · simp only [List.exists_mem_cons_iff, ih]
      generalize (∃ p ∈ rest, x ∈ p.2) = B
      tauto

theorem foldl_insertRoll_mem (rolls : List Roll)
    (acc : List (GroupKey × List Roll)) (x : Roll) :
    (∃ p ∈ rolls.foldl insertRoll acc, x ∈ p.2) ↔
      (∃ p ∈ acc, x ∈ p.2) ∨ x ∈ rolls := by
  induction rolls generalizing acc with
  | nil => simp
  | cons r rest ih =>
    rw [List.foldl_cons, ih (insertRoll acc r), mem_snd_insertRoll, List.mem_cons]
    generalize (∃ p ∈ acc, x ∈ p.2) = A
    tauto

theorem buildGroups_mem (rolls : List Roll) (x : Roll) :
    (∃ p ∈ buildGroups rolls, x ∈ p.2) ↔ x ∈ rolls := by
  simpa using foldl_insertRoll_mem rolls [] x

theorem buildGroups_wf (rolls : List Roll) : GroupsWF (buildGroups rolls) := by
  have h : ∀ (l : List Roll) (acc : List (GroupKey × List Roll)),
      GroupsWF acc → GroupsWF (l.foldl insertRoll acc) := by
    intro l
    induction l with
    | nil => exact fun acc h => h
    | cons r rest ih =>
      intro acc hacc
      exact ih _ (insertRoll_wf acc r hacc)
  exact h rolls [] ⟨List.nodup_nil, by simp, by simp⟩

theorem makeGroup_isSome (k : GroupKey) (rs : List Roll) (h : rs ≠ []) :
    ∃ g, makeGroup k rs = some g := by
  cases h' : sortByCreated rs with
  | nil =>
    exact absurd (List.Perm.eq_nil (h' ▸ (sortByKey_perm (·.created_at) rs).symm)) h
  | cons x tl =>
    refine ⟨⟨k, x.brand_id, x.color_id, x.type_id, x.subtype_id,
      x.original_weight_grams, rs, sortByCreated (rs.filter (·.opened)),
      rs.filter (fun r => !r.opened), x, x.created_at, x.updated_at⟩, ?_⟩
    unfold makeGroup
    rw [show sortByCreated rs = x :: tl from h']

/-- Field-level characterisation of a successfully built group view. -/
theorem makeGroup_some {k : GroupKey} {rs : List Roll} {g : GroupedRoll}
    (h : makeGroup k rs = some g) :
    g.key = k ∧ g.rolls = rs ∧
    g.openedRolls = sortByCreated (rs.filter (·.opened)) ∧
    g.unopenedRolls = rs.filter (fun r => !r.opened) ∧
    g.original_weight_grams = g.oldestRoll.original_weight_grams ∧
    g.created_at = g.oldestRoll.created_at ∧
    g.updated_at = g.oldestRoll.updated_at ∧
    ∃ tl, sortByCreated rs = g.oldestRoll :: tl := by
  unfold makeGroup at h
  split at h
  · exact absurd h (by simp)
  · rename_i oldest tl heq
    injection h with h
    subst h
    exact ⟨rfl, rfl, rfl, rfl, rfl, rfl, rfl, tl, heq⟩

/-- Every emitted group comes from one bucket of the association list. -/
theorem mem_groupRollsByType {c : FilterCriteria} {rolls : List Roll}
    {g : GroupedRoll} (hg : g ∈ groupRollsByType c rolls) :
    ∃ p ∈ buildGroups (rolls.filter (matchesFilters c)),
      makeGroup p.1 p.2 = some g := by
  simp only [groupRollsByType, List.mem_filterMap] at hg
  exact hg

/-- Every filtered roll lands in the group of its own key. -/
theorem groupRollsByType_complete (c : FilterCriteria) (rolls : List Roll)
    (r : Roll) (hr : r ∈ rolls) (hm : matchesFilters c r = true) :
    ∃ g ∈ groupRollsByType c rolls, g.key = rollKey r ∧ r ∈ g.rolls := by
  have hrf : r ∈ rolls.filter (matchesFilters c) := List.mem_filter.mpr ⟨hr, hm⟩
  obtain ⟨p, hp, hrp⟩ := (buildGroups_mem _ r).mpr hrf
  obtain ⟨hnd, hkey, hne⟩ := buildGroups_wf (rolls.filter (matchesFilters c))
  obtain ⟨g, hgp⟩ := makeGroup_isSome p.1 p.2 (hne p hp)
  refine ⟨g, ?_, ?_, ?_⟩
  · simp only [groupRollsByType, List.mem_filterMap]
    exact ⟨p, hp, hgp⟩
  · rw [(makeGroup_some hgp).1, ← hkey p hp r hrp]
  · rw [(makeGroup_some hgp).2.1]
    exact hrp

theorem keys_filterMap_makeGroup (gs : List (GroupKey × List Roll))
    (h : ∀ p ∈ gs, p.2 ≠ []) :
    (gs.filterMap (fun p => makeGroup p.1 p.2)).map (·.key) = gs.map Prod.fst := by
  induction gs with
  | nil => rfl
  | cons p rest ih =>
    obtain ⟨g, hg⟩ := makeGroup_isSome p.1 p.2 (h p (List.mem_cons_self _ _))
    simp only [List.filterMap_cons, hg, List.map_cons]
    rw [(makeGroup_some hg).1, ih (fun q hq => h q (List.mem_cons_of_mem _ hq))]

/-- Keys of the emitted views are the keys of the association list. -/
theorem keys_groupRollsByType (c : FilterCriteria) (rolls : List Roll) :
    (groupRollsByType c rolls).map (·.key)
      = (buildGroups (rolls.filter (matchesFilters c))).map Prod.fst := by
  simp only [groupRollsByType]
  exact keys_filterMap_makeGroup _
    (buildGroups_wf (rolls.filter (matchesFilters c))).2.2

/-! ## Claim theorems -/

/-- C2: in the output of `groupRollsByType` every filtered record
appears in exactly one `GroupedRoll` — the one whose 4-tuple key equals
the record's `brand_id`/`color_id`/`type_id`/`subtype_id` — and within
each view `openedRolls` and `unopenedRolls` are disjoint (split by the
`opened` flag) and their union is exactly the view's record set. -/
theorem grouping_partitions (c : FilterCriteria) (rolls : List Roll) :
    (∀ r ∈ rolls, matchesFilters c r = true →
      ∃ g ∈ groupRollsByType c rolls, g.key = rollKey r ∧ r ∈ g.rolls) ∧
    (∀ g ∈ groupRollsByType c rolls, ∀ r ∈ g.rolls, rollKey r = g.key) ∧
    (∀ g ∈ groupRollsByType c rolls, ∀ g' ∈ groupRollsByType c rolls,
      ∀ r, r ∈ g.rolls → r ∈ g'.rolls → g = g') ∧
    (∀ g ∈ groupRollsByType c rolls, ∀ r,
      r ∈ g.rolls ↔ (r ∈ g.openedRolls ∨ r ∈ g.unopenedRolls)) ∧
    (∀ g ∈ groupRollsByType c rolls,
      (∀ r ∈ g.openedRolls, r.opened = true) ∧
      (∀ r ∈ g.unopenedRolls, r.opened = false) ∧
      ∀ r, ¬(r ∈ g.openedRolls ∧ r ∈ g.unopenedRolls)) := by
  obtain ⟨hnd, hkey, hne⟩ := buildGroups_wf (rolls.filter (matchesFilters c))
  have key_of_mem : ∀ g ∈ groupRollsByType c rolls, ∀ r ∈ g.rolls,
      rollKey r = g.key := by
    intro g hg r hr
    obtain ⟨p, hp, hgp⟩ := mem_groupRollsByType hg
    obtain ⟨hk, hrolls, -⟩ := makeGroup_some hgp
    rw [hk]
    exact hkey p hp r (hrolls ▸ hr)
  have opened_mem : ∀ g ∈ groupRollsByType c rolls, ∀ r,
      r ∈ g.openedRolls ↔ r ∈ g.rolls ∧ r.opened = true := by
    intro g hg r
    obtain ⟨p, hp, hgp⟩ := mem_groupRollsByType hg
    obtain ⟨-, hrolls, hop, -⟩ := makeGroup_some hgp
    rw [hop, mem_sortByCreated, hrolls, List.mem_filter]
  have unopened_mem : ∀ g ∈ groupRollsByType c rolls, ∀ r,
      r ∈ g.unopenedRolls ↔ r ∈ g.rolls ∧ r.opened = false := by
    intro g hg r
    obtain ⟨p, hp, hgp⟩ := mem_groupRollsByType hg
    obtain ⟨-, hrolls, -, hunop, -⟩ := makeGroup_some hgp
    rw [hunop, hrolls, List.mem_filter]
    simp
  refine ⟨groupRollsByType_complete c rolls, key_of_mem, ?_, ?_, ?_⟩
  · intro g hg g' hg' r hr hr'
    have hndk : ((groupRollsByType c rolls).map (·.key)).Nodup := by
      rw [keys_groupRollsByType]
      exact hnd
    refine List.inj_on_of_nodup_map hndk hg hg' ?_
    rw [← key_of_mem g hg r hr, ← key_of_mem g' hg' r hr']
  · intro g hg r
    rw [opened_mem g hg r, unopened_mem g hg r]
    rcases Bool.eq_false_or_eq_true r.opened with h | h <;> simp [h]
  · intro g hg
    exact ⟨fun r hr => ((opened_mem g hg r).mp hr).2,
      fun r hr => ((unopened_mem g hg r).mp hr).2,
      fun r ⟨h1, h2⟩ => by
        have := ((opened_mem g hg r).mp h1).2
        have := ((unopened_mem g hg r).mp h2).2
        simp_all⟩

/-- C4 (amended): within each emitted group, `openedRolls` is sorted
ascending by `created_at` and consists exactly of the group's opened
records (a permutation of them); records with equal `created_at` are
not necessarily in ascending-id order. -/
theorem openedRolls_sorted (c : FilterCriteria) (rolls : List Roll)
    (g : GroupedRoll) (hg : g ∈ groupRollsByType c rolls) :
    g.openedRolls.Pairwise (fun a b => a.created_at ≤ b.created_at) ∧
    g.openedRolls.Perm (g.rolls.filter (·.opened)) := by
  obtain ⟨p, hp, hgp⟩ := mem_groupRollsByType hg
  obtain ⟨-, hrolls, hop, -⟩ := makeGroup_some hgp
  rw [hop, hrolls]
  exact ⟨sortByKey_pairwise _ _, sortByKey_perm _ _⟩

/-- C5 (amended): `oldestRoll` is a group member of minimal
`created_at` (ties are not necessarily broken by `id`), and the
group's `original_weight_grams`, `created_at` and `updated_at` are
taken from it — in particular the group's `updated_at` is the oldest
record's `updated_at`, not the maximum over the group. -/
theorem oldestRoll_fields (c : FilterCriteria) (rolls : List Roll)
    (g : GroupedRoll) (hg : g ∈ groupRollsByType c rolls) :
    g.oldestRoll ∈ g.rolls ∧
    (∀ r ∈ g.rolls, g.oldestRoll.created_at ≤ r.created_at) ∧
    g.original_weight_grams = g.oldestRoll.original_weight_grams ∧
    g.created_at = g.oldestRoll.created_at ∧
    g.updated_at = g.oldestRoll.updated_at := by
  obtain ⟨p, hp, hgp⟩ := mem_groupRollsByType hg
  obtain ⟨-, hrolls, -, -, hw, hc, hu, tl, htl⟩ := makeGroup_some hgp
  have hmin := sortByKey_head_min (·.created_at) p.2 g.oldestRoll tl htl
  rw [hrolls]
  exact ⟨hmin.1, hmin.2, hw, hc, hu⟩

/-- C9: the filter/grouping operation constructs new collections
only; every record reachable in the output (`rolls`, `openedRolls`,
`unopenedRolls`, `oldestRoll`) is literally an element of the input
list, so every field of every input record equals its value before the
call (the embedding is pure — `groupRollsByType` performs no record
mutation, which this theorem expresses as output records being input
elements). -/
theorem grouping_no_mutation (c : FilterCriteria) (rolls : List Roll)
    (g : GroupedRoll) (hg : g ∈ groupRollsByType c rolls) :
    (∀ r ∈ g.rolls, r ∈ rolls) ∧ (∀ r ∈ g.openedRolls, r ∈ rolls) ∧
    (∀ r ∈ g.unopenedRolls, r ∈ rolls) ∧ g.oldestRoll ∈ rolls := by
  obtain ⟨p, hp, hgp⟩ := mem_groupRollsByType hg
  obtain ⟨-, hrolls, hop, hunop, -, -, -, tl, htl⟩ := makeGroup_some hgp
  have hsub : ∀ r ∈ p.2, r ∈ rolls := by
    intro r hr
    have hmem : r ∈ rolls.filter (matchesFilters c) :=
      (buildGroups_mem _ r).mp ⟨p, hp, hr⟩
    exact (List.mem_filter.mp hmem).1
  refine ⟨?_, ?_, ?_, ?_⟩
  · intro r hr
    exact hsub r (hrolls ▸ hr)
  · intro r hr
    rw [hop, mem_sortByCreated, List.mem_filter] at hr
    exact hsub r hr.1
  · intro r hr
    rw [hunop, List.mem_filter] at hr
    exact hsub r hr.1
  · exact hsub _ (sortByKey_head_min (·.created_at) p.2 g.oldestRoll tl htl).1

/-- C10: `handleOpenNewRoll` opens the oldest unopened roll of the
group — the returned roll is an unopened member whose `created_at` is
minimal — and performs no call when the group has no unopened rolls. -/
theorem openNewRoll_oldest (g : GroupedRoll) :
    (g.unopenedRolls = [] → handleOpenNewRoll g = Option.none) ∧
    (∀ r, handleOpenNewRoll g = some r →
      r ∈ g.unopenedRolls ∧
      ∀ s ∈ g.unopenedRolls, r.created_at ≤ s.created_at) := by
  constructor
  · intro h
    simp [handleOpenNewRoll, h]
  · intro r hr
    unfold handleOpenNewRoll at hr
    split at hr
    · exact absurd hr (by simp)
    · cases htl : sortByCreated g.unopenedRolls with
      | nil =>
        rw [htl] at hr
        exact absurd hr (by simp)
      | cons x tl =>
        rw [htl] at hr
        have hx : x = r := by simpa using hr
        subst hx
        exact sortByKey_head_min (·.created_at) g.unopenedRolls x tl htl

/-! ## Concrete populations for counterexamples and witnesses -/

/-- Two opened rolls of one combo with equal `created_at`; the input
order presents the larger id first. -/
def rollHiId : Roll :=
  ⟨2, 1, 1, 1, 1, 100, 100, 600, 1000, false, true⟩

def rollLoId : Roll :=
  ⟨1, 1, 1, 1, 1, 100, 100, 500, 1000, false, true⟩

/-- A combo with two opened rolls (distinct `created_at`) and one
unopened roll. -/
def rollOldOpened : Roll :=
  ⟨3, 1, 1, 1, 1, 50, 60, 400, 1000, true, true⟩

def rollNewOpened : Roll :=
  ⟨4, 1, 1, 1, 1, 150, 150, 900, 1000, false, true⟩

def rollUnopenedSample : Roll :=
  ⟨5, 1, 1, 1, 1, 200, 200, 1000, 1000, false, false⟩

def samplePopulation : List Roll :=
  [rollNewOpened, rollUnopenedSample, rollOldOpened]

def dummyGroup : GroupedRoll :=
  ⟨(0, 0, 0, 0), 0, 0, 0, 0, 0, [], [], [], rollOldOpened, 0, 0⟩

def sampleGroup : GroupedRoll :=
  (groupRollsByType FilterCriteria.none samplePopulation).getD 0 dummyGroup

/-- C4 counterexample: with two opened records of equal
`created_at` arriving with the larger id first, `openedRolls` keeps
that order, so equal-`created_at` records are not ordered by `id`
ascending as the claim states. -/
theorem openedRolls_id_tiebreak_cex :
    ¬ ∀ g ∈ groupRollsByType FilterCriteria.none [rollHiId, rollLoId],
        g.openedRolls.Pairwise
          (fun a b => a.created_at = b.created_at → a.id ≤ b.id) := by
  decide

/-- C5 counterexample: with two records of equal `created_at`
arriving with the larger id first, `oldestRoll` is the first one in
input order (id 2), not the one with the smaller id, so ties are not
broken by `id` as the claim states. -/
theorem oldestRoll_id_tiebreak_cex :
    ¬ ∀ g ∈ groupRollsByType FilterCriteria.none [rollHiId, rollLoId],
        ∀ r ∈ g.rolls, g.oldestRoll.created_at = r.created_at →
          g.oldestRoll.id ≤ r.id := by
  decide

theorem grouping_partitions_witness :
    ∃ g ∈ groupRollsByType FilterCriteria.none samplePopulation,
      g.key = rollKey rollOldOpened ∧ rollOldOpened ∈ g.rolls :=
  (grouping_partitions FilterCriteria.none samplePopulation).1 rollOldOpened
    (by decide) (by decide)

theorem openedRolls_sorted_witness :
    sampleGroup.openedRolls.Pairwise
      (fun a b => a.created_at ≤ b.created_at) :=
  (openedRolls_sorted FilterCriteria.none samplePopulation sampleGroup
    (by decide)).1

theorem oldestRoll_fields_witness :
    sampleGroup.oldestRoll ∈ sampleGroup.rolls ∧
    sampleGroup.updated_at = sampleGroup.oldestRoll.updated_at :=
  ⟨(oldestRoll_fields FilterCriteria.none samplePopulation sampleGroup
      (by decide)).1,
   (oldestRoll_fields FilterCriteria.none samplePopulation sampleGroup
      (by decide)).2.2.2.2⟩

theorem grouping_no_mutation_witness :
    sampleGroup.oldestRoll ∈ samplePopulation :=
  (grouping_no_mutation FilterCriteria.none samplePopulation sampleGroup
    (by decide)).2.2.2

theorem openNewRoll_oldest_witness :
    rollUnopenedSample ∈ sampleGroup.unopenedRolls :=
  ((openNewRoll_oldest sampleGroup).2 rollUnopenedSample (by decide)).1

/-! ## Filter-engine claims -/

theorem matchOpt_eq_true_iff (o : Option Nat) (v : Nat) :
    matchOpt o v = true ↔ ∀ b, o = some b → v = b := by
  cases o with
  | none => simp [matchOpt]
  | some a => simp [matchOpt]

theorem bool_imp_iff (a b : Bool) :
    (!a || b) = true ↔ (a = true → b = true) := by
  cases a <;> simp

theorem zero_clause_iff (a : Bool) (w : Int) :
    (a || w != 0) = true ↔ (a = false → w ≠ 0) := by
  cases a <;> simp [bne_iff_ne]

/-- C1: records with `weight_grams == 0` are excluded from the
filter result unless `include_zero_weight` is explicitly true, and
every record with positive weight that matches the other criteria is
returned. -/
theorem filter_zero_weight_default (c : QueryCriteria) (records : List Roll)
    (r : Roll) :
    (c.include_zero_weight = false → r.weight_grams = 0 →
      r ∉ filterRecords c records) ∧
    (r ∈ filterRecords c records → r.weight_grams = 0 →
      c.include_zero_weight = true) ∧
    (r ∈ records → matchesBase c r = true → 0 < r.weight_grams →
      r ∈ filterRecords c records) := by
  have h1 : c.include_zero_weight = false → r.weight_grams = 0 →
      r ∉ filterRecords c records := by
    intro hz hw hmem
    rw [filterRecords, List.mem_filter, matchesQuery, Bool.and_eq_true] at hmem
    have := (zero_clause_iff _ _).mp hmem.2.2 hz
    exact this hw
  refine ⟨h1, ?_, ?_⟩
  · intro hmem hw
    cases hfl : c.include_zero_weight
    · exact absurd hmem (h1 hfl hw)
    · rfl
  · intro hmem hb hw
    rw [filterRecords, List.mem_filter, matchesQuery, Bool.and_eq_true]
    exact ⟨hmem, hb, (zero_clause_iff _ _).mpr (fun _ => ne_of_gt hw)⟩

def spoolW0 : Roll := ⟨11, 1, 1, 1, 1, 10, 10, 0, 1000, false, true⟩

def spoolW50 : Roll := ⟨12, 1, 1, 1, 1, 10, 10, 50, 1000, false, true⟩

def spoolW1000 : Roll := ⟨13, 1, 1, 1, 1, 10, 10, 1000, 1000, false, false⟩

def zeroPopulation : List Roll := [spoolW0, spoolW50, spoolW1000]

theorem filter_zero_weight_default_witness :
    spoolW0 ∉ filterRecords QueryCriteria.none zeroPopulation ∧
    spoolW50 ∈ filterRecords QueryCriteria.none zeroPopulation :=
  ⟨(filter_zero_weight_default QueryCriteria.none zeroPopulation spoolW0).1
      rfl rfl,
   (filter_zero_weight_default QueryCriteria.none zeroPopulation spoolW50).2.2
      (by decide) (by decide) (by decide)⟩

/-- C8: a record is in the filter result iff it is an input record
satisfying every provided criterion — exact id matches when present,
`opened` when `opened_only`, `in_use` when `in_use_only` — and the
zero-weight default; with no criteria set, every record of positive
weight is returned. -/
theorem filter_matches_iff (c : QueryCriteria) (records : List Roll)
    (r : Roll) :
    r ∈ filterRecords c records ↔
      r ∈ records ∧
      (∀ b, c.brand_id = some b → r.brand_id = b) ∧
      (∀ x, c.color_id = some x → r.color_id = x) ∧
      (∀ t, c.type_id = some t → r.type_id = t) ∧
      (∀ s, c.subtype_id = some s → r.subtype_id = s) ∧
      (c.opened_only = true → r.opened = true) ∧
      (c.in_use_only = true → r.in_use = true) ∧
      (c.include_zero_weight = false → r.weight_grams ≠ 0) := by
  rw [filterRecords, List.mem_filter, matchesQuery, matchesBase]
  simp only [Bool.and_eq_true, matchOpt_eq_true_iff, bool_imp_iff,
    zero_clause_iff, and_assoc]

theorem filter_matches_iff_witness :
    spoolW50 ∈ filterRecords QueryCriteria.none zeroPopulation :=
  (filter_matches_iff QueryCriteria.none zeroPopulation spoolW50).mpr
    (by simp [QueryCriteria.none, spoolW50, spoolW0, spoolW1000, zeroPopulation])

/-! ## Lifecycle-engine claims -/

/-- C3: a successful `update_weight` always leaves the record
opened — on an unopened record the single call both opens it and
applies the requested change — and changes nothing besides
`weight_grams`, `opened` and `updated_at`, so an already-opened record
only gets the weight change. -/
theorem update_weight_opens (now : Nat) (r : Roll) (u : WeightUpdate)
    (res : Roll) (h : update_weight now r u = .ok res) :
    res.opened = true ∧
    (∀ w, u.new_weight_grams = some w → res.weight_grams = w) ∧
    (u.new_weight_grams = Option.none →
      ∀ d, u.decrease_by_grams = some d →
        res.weight_grams = r.weight_grams - d) ∧
    res.id = r.id ∧ res.brand_id = r.brand_id ∧ res.color_id = r.color_id ∧
    res.type_id = r.type_id ∧ res.subtype_id = r.subtype_id ∧
    res.created_at = r.created_at ∧
    res.original_weight_grams = r.original_weight_grams ∧
    res.in_use = r.in_use ∧ res.updated_at = now := by
  obtain ⟨nw, dw⟩ := u
  cases nw with
  | none =>
    cases dw with
    | none => simp [update_weight] at h
    | some d =>
      simp only [update_weight] at h
      split at h
      · exact absurd h (by simp)
      · split at h
        · exact absurd h (by simp)
        · injection h with h
          subst h
          cases hop : r.opened <;> simp [set_opened, hop]
  | some w =>
    cases dw with
    | some d => simp [update_weight] at h
    | none =>
      simp only [update_weight] at h
      split at h
      · exact absurd h (by simp)
      · injection h with h
        subst h
        cases hop : r.opened <;> simp [set_opened, hop]

def spoolUnopenedLife : Roll := ⟨7, 2, 3, 4, 5, 10, 10, 1000, 1000, false, false⟩

def spoolOpenedLife : Roll := ⟨8, 2, 3, 4, 5, 10, 20, 800, 1000, false, true⟩

def spoolWeighed : Roll := ⟨7, 2, 3, 4, 5, 10, 200, 800, 1000, false, true⟩

theorem update_weight_opens_witness :
    spoolWeighed.opened = true ∧ spoolWeighed.weight_grams = 800 :=
  ⟨(update_weight_opens 200 spoolUnopenedLife ⟨some 800, Option.none⟩
      spoolWeighed rfl).1,
   (update_weight_opens 200 spoolUnopenedLife ⟨some 800, Option.none⟩
      spoolWeighed rfl).2.1 800 rfl⟩

/-- C6: `set_in_use(true)` on an unopened record fails with
`ValidationError` (so the record is left unchanged — in this pure
embedding an error outcome carries no updated record), and no
successful `set_in_use` outcome has `in_use = true` with
`opened = false`. -/
theorem set_in_use_guard (now : Nat) (r : Roll) :
    (r.opened = false → set_in_use now r true = .error .validationError) ∧
    (∀ v res, set_in_use now r v = .ok res →
      res.in_use = true → res.opened = true) := by
  constructor
  · intro h
    simp [set_in_use, h]
  · intro v res h hu
    cases v with
    | false =>
      exfalso
      cases hiu : r.in_use
      · simp [set_in_use, hiu] at h
        subst h
        simp [hiu] at hu
      · simp [set_in_use, hiu] at h
        subst h
        simp at hu
    | true =>
      cases hop : r.opened
      · simp [set_in_use, hop] at h
      · cases hiu : r.in_use
        · simp [set_in_use, hop, hiu] at h
          subst h
          simp [hop]
        · simp [set_in_use, hop, hiu] at h
          subst h
          exact hop

theorem set_in_use_guard_witness :
    set_in_use 30 spoolUnopenedLife true = .error .validationError :=
  (set_in_use_guard 30 spoolUnopenedLife).1 rfl

/-- C7: `update_weight` fails with `ValidationError` whenever an
input is negative, the resulting weight would leave
`[0, original_weight_grams]`, or the request carries neither or both
forms; on failure no updated record is produced, so the record's state
is unchanged. -/
theorem update_weight_validation (now : Nat) (r : Roll) (w d : Int) :
    (w < 0 → update_weight now r ⟨some w, Option.none⟩ =
      .error .validationError) ∧
    (r.original_weight_grams < w →
      update_weight now r ⟨some w, Option.none⟩ = .error .validationError) ∧
    (d < 0 → update_weight now r ⟨Option.none, some d⟩ =
      .error .validationError) ∧
    ((r.weight_grams - d < 0 ∨ r.original_weight_grams < r.weight_grams - d) →
      update_weight now r ⟨Option.none, some d⟩ = .error .validationError) ∧
    update_weight now r ⟨Option.none, Option.none⟩ =
      .error .validationError ∧
    update_weight now r ⟨some w, some d⟩ = .error .validationError := by
  refine ⟨?_, ?_, ?_, ?_, by simp [update_weight], by simp [update_weight]⟩
  · intro h
    simp only [update_weight]
    rw [if_pos (Or.inl h)]
  · intro h
    simp only [update_weight]
    rw [if_pos (Or.inr h)]
  · intro h
    simp only [update_weight]
    rw [if_pos h]
  · intro h
    simp only [update_weight]
    rcases lt_or_le d 0 with hd | hd
    · rw [if_pos hd]
    · rw [if_neg (not_lt.mpr hd), if_pos h]

theorem update_weight_validation_witness :
    update_weight 40 spoolOpenedLife ⟨some (-5), Option.none⟩ =
      .error .validationError :=
  (update_weight_validation 40 spoolOpenedLife (-5) 0).1 (by decide)

end FillyTrckr
